import Mathlib

/-!
# Verification of the mdcat rendering state machine

A shallow embedding of `src/render/mod.rs` (the `write_event` transition
function and the `finish` finalizer) together with the data model it uses.

The files `render/state.rs`, `render/data.rs`, `render/write.rs` and
`references.rs` are not part of the available sources; the definitions
taken from them are modelled from the specification (each such definition
carries a doc comment starting with `Modelled from the spec:`).  Everything
in `writeEvent` and `finish` below is translated arm by arm from
`src/render/mod.rs`.

Side effects are made explicit: writes to the output sink become a list of
`Out` tokens returned by each transition, and the `panic!` calls of the
source become the `.contractViolation` error of an `Except`.
-/

namespace Mdcat

/-- `ansi_term::Colour`, restricted to the variants the renderer uses. -/
inductive Colour
  | black | red | green | yellow | blue | purple | cyan | white
  deriving DecidableEq, Repr

/-- `ansi_term::Style`, restricted to the fields the renderer touches:
foreground colour, bold, italic and strikethrough. -/
structure Style where
  fg : Option Colour := none
  isBold : Bool := false
  isItalic : Bool := false
  isStrikethrough : Bool := false
  deriving DecidableEq, Repr

/-- `Style::new()` -/
def Style.new : Style := {}

/-- `Style::fg` -/
def Style.withFg (s : Style) (c : Colour) : Style := { s with fg := some c }

/-- `Style::bold` -/
def Style.bold (s : Style) : Style := { s with isBold := true }

/-- `Style::italic` -/
def Style.italic (s : Style) : Style := { s with isItalic := true }

/-- `Style::strikethrough` -/
def Style.strike (s : Style) : Style := { s with isStrikethrough := true }

/-- `pulldown_cmark::CodeBlockKind` -/
inductive CodeBlockKind
  | indented
  | fenced (info : String)
  deriving DecidableEq, Repr

/-- `pulldown_cmark::LinkType`, restricted to the variants the renderer
distinguishes. -/
inductive LinkType
  | inline | reference | shortcut | collapsed | autolink | email
  deriving DecidableEq, Repr

/-- `pulldown_cmark::Tag`, restricted to the tags handled in `write_event`. -/
inductive Tag
  | paragraph
  | heading (level : Nat)
  | blockQuote
  | codeBlock (kind : CodeBlockKind)
  | list (start : Option Nat)
  | item
  | emphasis
  | strong
  | strikethrough
  | link (lt : LinkType) (target : String) (title : String)
  | image (lt : LinkType) (target : String) (title : String)
  deriving DecidableEq, Repr

/-- `pulldown_cmark::Event`, restricted to the events handled in
`write_event`.  `endTag` models `Event::End`. -/
inductive Event
  | start (t : Tag)
  | endTag (t : Tag)
  | text (s : String)
  | code (s : String)
  | html (s : String)
  | softBreak
  | hardBreak
  | taskListMarker (checked : Bool)
  | rule
  deriving DecidableEq, Repr

/-- `render::state::MarginControl` (three-valued, as used by the arms of
`write_event`: block starts test `!= NoMargin`, HTML arms test `== Margin`). -/
inductive MarginControl
  | margin | noMargin | noMarginForHtmlOnly
  deriving DecidableEq, Repr

/-- Modelled from the spec: the *Root* state carries a margin flag deciding
whether a blank line precedes the next block (`render/state.rs` is not in
the sources). -/
structure TopLevelAttrs where
  marginBefore : MarginControl := .noMargin
  deriving DecidableEq, Repr

/-- `TopLevelAttrs::margin_before()` -/
def TopLevelAttrs.withMargin : TopLevelAttrs := ⟨.margin⟩

/-- `TopLevelAttrs::no_margin_for_html_only()` -/
def TopLevelAttrs.htmlOnly : TopLevelAttrs := ⟨.noMarginForHtmlOnly⟩

/-- Modelled from the spec: a *StyledBlock* frame carries indent column,
accumulated style and a margin flag (`render/state.rs` is not in the
sources). -/
structure StyledBlockAttrs where
  marginBefore : MarginControl := .margin
  indent : Nat := 0
  style : Style := Style.new
  deriving DecidableEq, Repr

/-- `StyledBlockAttrs::with_margin_before` -/
def StyledBlockAttrs.withMarginBefore (a : StyledBlockAttrs) : StyledBlockAttrs :=
  { a with marginBefore := .margin }

/-- `StyledBlockAttrs::without_margin_before` -/
def StyledBlockAttrs.withoutMarginBefore (a : StyledBlockAttrs) : StyledBlockAttrs :=
  { a with marginBefore := .noMargin }

/-- `StyledBlockAttrs::without_margin_for_html_only` -/
def StyledBlockAttrs.withoutMarginForHtmlOnly (a : StyledBlockAttrs) : StyledBlockAttrs :=
  { a with marginBefore := .noMarginForHtmlOnly }

/-- Modelled from the spec: entering a block quote adds the quote indent
unit to the indent and an italic accent to the style (`render/state.rs` is
not in the sources; the spec fixes only that a fixed unit is added on
descent and removed on ascent). -/
def StyledBlockAttrs.blockQuote (a : StyledBlockAttrs) : StyledBlockAttrs :=
  { a with indent := a.indent + 4, style := a.style.italic }

/-- Modelled from the spec: inline attributes are the current style and
indent (`render/state.rs` is not in the sources). -/
structure InlineAttrs where
  style : Style := Style.new
  indent : Nat := 0
  deriving DecidableEq, Repr

/-- `InlineAttrs::from(&StyledBlockAttrs)` -/
def InlineAttrs.fromStyled (a : StyledBlockAttrs) : InlineAttrs :=
  ⟨a.style, a.indent⟩

/-- `StyledBlockAttrs::from(&InlineAttrs)` -/
def StyledBlockAttrs.fromInline (a : InlineAttrs) : StyledBlockAttrs :=
  { marginBefore := .margin, indent := a.indent, style := a.style }

/-- `LiteralBlockAttrs`: indent and style of a fenced block without
highlighting. -/
structure LiteralBlockAttrs where
  indent : Nat
  style : Style
  deriving DecidableEq, Repr

/-- `HighlightBlockAttrs`: indent plus the incremental highlighter state.
The syntect parse state and highlight state are opaque external values;
they are modelled as counters that the per-line highlighting calls advance,
which captures exactly the property the spec demands of them: they persist
across `Text` chunks of one block. -/
structure HighlightBlockAttrs where
  indent : Nat
  parseState : Nat
  highlightState : Nat
  deriving DecidableEq, Repr

/-- `LinkCapability` (only OSC8 exists). -/
inductive LinkCapability
  | osc8
  deriving DecidableEq, Repr

/-- `ImageCapability`: the three mutually exclusive protocols. -/
inductive ImageCapability
  | terminology | iterm2 | kitty
  deriving DecidableEq, Repr

/-- `ListItemKind` -/
inductive ListItemKind
  | unordered
  | ordered (no : Nat)
  deriving DecidableEq, Repr

/-- `ListItemState` -/
inductive ListItemState
  | startItem | itemBlock | itemText
  deriving DecidableEq, Repr

/-- `InlineState` -/
inductive InlineState
  | inlineText
  | inlineLink (cap : LinkCapability)
  | listItem (kind : ListItemKind) (st : ListItemState)
  deriving DecidableEq, Repr

/-- `StackedState` -/
inductive StackedState
  | styledBlock (attrs : StyledBlockAttrs)
  | literalBlock (attrs : LiteralBlockAttrs)
  | highlightBlock (attrs : HighlightBlockAttrs)
  | inline (st : InlineState) (attrs : InlineAttrs)
  | renderedImage
  deriving DecidableEq, Repr

/-- `State`: either the top-level (*Root*) state, or a stack of ancestor
frames (top first), the attributes of the top-level frame at the bottom,
and a current frame.  `State::stack_onto(a).current(c)` becomes
`.stacked [] a c`; `stack.push(f).current(c)` becomes
`.stacked (f :: stack) bot c`. -/
inductive State
  | topLevel (attrs : TopLevelAttrs)
  | stacked (stack : List StackedState) (bot : TopLevelAttrs) (cur : StackedState)
  deriving DecidableEq, Repr

/-- `stack.pop()`: the top of the stack becomes the current frame; popping
the last frame returns to the top-level state. -/
def State.pop : List StackedState → TopLevelAttrs → State
  | [], b => .topLevel b
  | f :: fs, b => .stacked fs b f

/-- Number of frames on the render stack (current frame included). -/
def State.depth : State → Nat
  | .topLevel _ => 0
  | .stacked s _ _ => s.length + 1

/-- The whole stack, current frame first. -/
def State.stackOf : State → List StackedState
  | .topLevel _ => []
  | .stacked s _ c => c :: s

/-- The bottom (top-level) attributes of the state. -/
def State.botOf : State → TopLevelAttrs
  | .topLevel a => a
  | .stacked _ b _ => b

/-- Indent column stored in a frame. -/
def StackedState.curIndent : StackedState → Nat
  | .styledBlock a => a.indent
  | .literalBlock a => a.indent
  | .highlightBlock a => a.indent
  | .inline _ a => a.indent
  | .renderedImage => 0

/-- Style stored in a frame. -/
def StackedState.curStyle : StackedState → Style
  | .styledBlock a => a.style
  | .literalBlock a => a.style
  | .highlightBlock _ => Style.new
  | .inline _ a => a.style
  | .renderedImage => Style.new

/-- Indentation in force in a state. -/
def State.indentOf : State → Nat
  | .topLevel _ => 0
  | .stacked _ _ c => c.curIndent

/-- Style in force in a state. -/
def State.styleOf : State → Style
  | .topLevel _ => Style.new
  | .stacked _ _ c => c.curStyle

/-- Margin flag in force in a state. -/
def State.marginOf : State → MarginControl
  | .topLevel a => a.marginBefore
  | .stacked _ _ (.styledBlock a) => a.marginBefore
  | .stacked _ _ _ => .noMargin

/-- A buffered pending link reference: index, target, title and display
colour. -/
structure LinkRef where
  index : Nat
  target : String
  title : String
  colour : Colour
  deriving DecidableEq, Repr

/-- Modelled from the spec: `render/data.rs` is not in the sources.
`StateData` owns the buffered pending link references and the next
reference index (starting at 1, never reused). -/
structure StateData where
  pendingLinkDefinitions : List LinkRef
  nextLinkIndex : Nat
  deriving DecidableEq, Repr

/-- The data threaded through a fresh render: no pending references, next
index 1. -/
def StateData.initial : StateData := ⟨[], 1⟩

/-- `StateData::add_link`: buffer a reference under the next index and
return that index. -/
def StateData.addLink (d : StateData) (target title : String) (c : Colour) :
    StateData × Nat :=
  ({ pendingLinkDefinitions :=
       d.pendingLinkDefinitions ++ [⟨d.nextLinkIndex, target, title, c⟩],
     nextLinkIndex := d.nextLinkIndex + 1 },
   d.nextLinkIndex)

/-- `StateData::take_links`: hand out the buffered references and clear the
buffer; the next index is kept so indices are never reused. -/
def StateData.takeLinks (d : StateData) : StateData × List LinkRef :=
  ({ d with pendingLinkDefinitions := [] }, d.pendingLinkDefinitions)

/-- One write to the output sink.  Escape payloads produced behind the
capability boundary (marks, rules, borders, OSC8 hyperlinks, inline images,
highlighted runs) are opaque to the core and therefore kept as distinct
tokens carrying exactly the data the core hands to the capability. -/
inductive Out
  | raw (s : String)
  | styled (st : Style) (s : String)
  | mark
  | rule (width : Nat)
  | border
  | osc8Open (url : String) (host : String)
  | osc8Close
  | terminologyImage (url : String)
  | iterm2Image (url : String)
  | kittyImage (url : String)
  | highlighted (parseState : Nat) (hlState : Nat) (line : String)
  | headingStart (level : Nat) (st : Style)
  deriving DecidableEq, Repr

/-- `TerminalCapabilities`: colour/ANSI styling on or off, an optional
hyperlink capability and at most one image capability. -/
structure TerminalCapabilities where
  styleAnsi : Bool
  links : Option LinkCapability
  image : Option ImageCapability
  deriving DecidableEq, Repr

/-- `TerminalSize`: columns plus optional pixel size. -/
structure TerminalSize where
  columns : Nat
  pixels : Option (Nat × Nat)
  deriving DecidableEq, Repr

/-- `Settings`.  The syntax set and the image fetch/decode pipeline are
external collaborators; they enter the model as oracles: whether a
highlighter exists for a fence, and whether `read_and_render` succeeds for
a URL under the iTerm2 and kitty protocols. -/
structure Settings where
  terminalCapabilities : TerminalCapabilities
  terminalSize : TerminalSize
  highlightAvailable : CodeBlockKind → Bool
  iterm2RenderOk : String → Bool
  kittyRenderOk : String → Bool

/-- `Environment`: reference resolution against the base directory and the
hostname, both external; resolution is an oracle. -/
structure Environment where
  resolveReference : String → Option String
  hostname : String

/-- The fatal contract violation of the source (`panic!`): an unreachable
`(state, event)` pairing, or finishing in a non-terminal state.  It is the
only error of the pure model; sink I/O failures are not modelled. -/
inductive RenderErr
  | contractViolation
  deriving DecidableEq, Repr

/-- `n` spaces. -/
def spaces (n : Nat) : String := String.mk (List.replicate n ' ')

/-- `write_indent`: write `indent` spaces. -/
def writeIndent (n : Nat) : List Out := [.raw (spaces n)]

/-- Modelled from the spec: `write_styled` of `render/write.rs` is not in
the sources; with ANSI styling available it emits a styled run through the
capability boundary, otherwise it writes the plain text. -/
def writeStyled (caps : TerminalCapabilities) (st : Style) (s : String) : List Out :=
  if caps.styleAnsi then [.styled st s] else [.raw s]

/-- Modelled from the spec: `write_mark` of `render/write.rs` is not in the
sources; the mark emission is abstracted as a single capability token. -/
def writeMark (_caps : TerminalCapabilities) : List Out := [.mark]

/-- Modelled from the spec: `write_rule` of `render/write.rs` is not in the
sources; a horizontal rule across `width` columns is one capability token. -/
def writeRule (_caps : TerminalCapabilities) (width : Nat) : List Out := [.rule width]

/-- Modelled from the spec: `write_border` of `render/write.rs` is not in
the sources; the code block border is one capability token. -/
def writeBorder (_caps : TerminalCapabilities) (_size : TerminalSize) : List Out := [.border]

/-- Modelled from the spec: `write_start_heading` of `render/write.rs` is
not in the sources; it writes the heading opening and returns the inline
state for the heading text. -/
def writeStartHeading (_caps : TerminalCapabilities) (style : Style) (level : Nat) :
    StackedState × List Out :=
  (.inline .inlineText ⟨(style.withFg .cyan).bold, 0⟩, [.headingStart level style])

/-- Modelled from the spec: `write_start_code_block` of `render/write.rs`
is not in the sources; entry writes one opening effect and selects
`LiteralBlock` when no highlighter is available for the fence and
`HighlightBlock` when one is, capturing indent and style once at entry. -/
def writeStartCodeBlock (settings : Settings) (indent : Nat) (style : Style)
    (kind : CodeBlockKind) : StackedState × List Out :=
  if settings.highlightAvailable kind then
    (.highlightBlock ⟨indent, 0, 0⟩, [.border])
  else
    (.literalBlock ⟨indent, style⟩, [.border])

/-- The reference line of one pending link, `[index]: target title`. -/
def refLine (r : LinkRef) : String :=
  "[" ++ toString r.index ++ "]: " ++ r.target ++
    (if r.title = "" then "" else " " ++ r.title)

/-- Modelled from the spec: `write_link_refs` of `references.rs` is not in
the sources; it emits one reference line per buffered reference, in order,
each styled with the reference's display colour. -/
def writeLinkRefs (caps : TerminalCapabilities) (refs : List LinkRef) : List Out :=
  (refs.map (fun r =>
    writeStyled caps { Style.new with fg := some r.colour } (refLine r) ++ [Out.raw "\n"])).flatten

/-- Rust `str::ends_with('\\n')`: whether the last character is a line
terminator (written structurally so that it evaluates definitionally). -/
def endsWithNewline (s : String) : Bool :=
  match s.data.getLast? with
  | some c => c = '\n'
  | none => false

/-- `syntect::util::LinesWithEndings`: split into physical lines, each
keeping its trailing line terminator; a final segment without terminator is
kept as well, and the empty string yields no lines. -/
def linesWithEndingsAux : List Char → List Char → List String
  | [], [] => []
  | [], acc => [String.mk acc.reverse]
  | '\n' :: rest, acc => String.mk (acc.reverse ++ ['\n']) :: linesWithEndingsAux rest []
  | c :: rest, acc => linesWithEndingsAux rest (c :: acc)

/-- See `linesWithEndingsAux`. -/
def linesWithEndings (s : String) : List String := linesWithEndingsAux s.data []

/-- `format!("{:>2}. ", no)` without the suffix: the ordinal right-aligned
to (at least) two columns. -/
def padOrdinal (n : Nat) : String :=
  if n < 10 then " " ++ toString n else toString n

/-- `write_event` of `src/render/mod.rs`, arm by arm and in source order.
The return value is the new state, the new data and the list of writes the
transition performed.  The catch-all `panic!` arm becomes
`.error .contractViolation`. -/
def writeEvent (settings : Settings) (env : Environment) (state : State)
    (data : StateData) (event : Event) :
    Except RenderErr (State × StateData × List Out) :=
  let caps := settings.terminalCapabilities
  match state, event with
  -- Top level items
  | .topLevel attrs, .start .paragraph =>
      .ok (.stacked [] TopLevelAttrs.withMargin (.inline .inlineText {}),
           data,
           if attrs.marginBefore ≠ .noMargin then [.raw "\n"] else [])
  | .topLevel attrs, .start (.heading level) =>
      let taken := data.takeLinks
      let h := writeStartHeading caps Style.new level
      .ok (.stacked [] TopLevelAttrs.withMargin h.1,
           taken.1,
           writeLinkRefs caps taken.2
             ++ ((if attrs.marginBefore ≠ .noMargin then [.raw "\n"] else [])
               ++ (writeMark caps ++ h.2)))
  | .topLevel attrs, .start .blockQuote =>
      .ok (.stacked [] TopLevelAttrs.withMargin
             (.styledBlock (({} : StyledBlockAttrs).blockQuote.withoutMarginBefore)),
           data,
           if attrs.marginBefore ≠ .noMargin then [.raw "\n"] else [])
  | .topLevel attrs, .rule =>
      .ok (.topLevel TopLevelAttrs.withMargin,
           data,
           (if attrs.marginBefore ≠ .noMargin then [.raw "\n"] else [])
             ++ writeRule caps settings.terminalSize.columns ++ [.raw "\n"])
  | .topLevel attrs, .start (.codeBlock kind) =>
      let cb := writeStartCodeBlock settings 0 Style.new kind
      .ok (.stacked [] TopLevelAttrs.withMargin cb.1,
           data,
           (if attrs.marginBefore ≠ .noMargin then [.raw "\n"] else []) ++ cb.2)
  | .topLevel attrs, .start (.list start) =>
      let kind := match start with
        | none => ListItemKind.unordered
        | some n => ListItemKind.ordered n
      .ok (.stacked [] TopLevelAttrs.withMargin
             (.inline (.listItem kind .startItem) {}),
           data,
           if attrs.marginBefore ≠ .noMargin then [.raw "\n"] else [])
  | .topLevel attrs, .html h =>
      .ok (.topLevel TopLevelAttrs.htmlOnly,
           data,
           (if attrs.marginBefore = .margin then [.raw "\n"] else [])
             ++ writeStyled caps (Style.new.withFg .green) h)

  -- Nested blocks with style, e.g. paragraphs in quotes, etc.
  | .stacked stack bot (.styledBlock attrs), .start .paragraph =>
      .ok (.stacked (.styledBlock attrs.withMarginBefore :: stack) bot
             (.inline .inlineText (InlineAttrs.fromStyled attrs)),
           data,
           (if attrs.marginBefore ≠ .noMargin then [.raw "\n"] else [])
             ++ writeIndent attrs.indent)
  | .stacked stack bot (.styledBlock attrs), .start .blockQuote =>
      .ok (.stacked (.styledBlock attrs.withMarginBefore :: stack) bot
             (.styledBlock attrs.withoutMarginBefore.blockQuote),
           data,
           if attrs.marginBefore ≠ .noMargin then [.raw "\n"] else [])
  | .stacked stack bot (.styledBlock attrs), .rule =>
      .ok (.stacked stack bot (.styledBlock attrs.withMarginBefore),
           data,
           (if attrs.marginBefore ≠ .noMargin then [.raw "\n"] else [])
             ++ writeIndent attrs.indent
             ++ writeRule caps (settings.terminalSize.columns - attrs.indent)
             ++ [.raw "\n"])
  | .stacked stack bot (.styledBlock attrs), .start (.heading level) =>
      let h := writeStartHeading caps attrs.style level
      .ok (.stacked (.styledBlock attrs.withMarginBefore :: stack) bot h.1,
           data,
           (if attrs.marginBefore ≠ .noMargin then [.raw "\n"] else [])
             ++ writeIndent attrs.indent ++ h.2)
  | .stacked stack bot (.styledBlock attrs), .start (.list start) =>
      let kind := match start with
        | none => ListItemKind.unordered
        | some n => ListItemKind.ordered n
      .ok (.stacked (.styledBlock attrs.withMarginBefore :: stack) bot
             (.inline (.listItem kind .startItem) (InlineAttrs.fromStyled attrs)),
           data,
           if attrs.marginBefore ≠ .noMargin then [.raw "\n"] else [])
  | .stacked stack bot (.styledBlock attrs), .start (.codeBlock kind) =>
      let cb := writeStartCodeBlock settings attrs.indent attrs.style kind
      .ok (.stacked (.styledBlock attrs :: stack) bot cb.1,
           data,
           (if attrs.marginBefore ≠ .noMargin then [.raw "\n"] else []) ++ cb.2)
  | .stacked stack bot (.styledBlock attrs), .html h =>
      .ok (.stacked stack bot (.styledBlock attrs.withoutMarginForHtmlOnly),
           data,
           (if attrs.marginBefore = .margin then [.raw "\n"] else [])
             ++ writeIndent attrs.indent
             ++ writeStyled caps (attrs.style.withFg .green) h)

  -- Lists
  | .stacked stack bot (.inline (.listItem kind st) attrs), .start .item =>
      let bullet := match kind with
        | .unordered => ("• ", attrs.indent + 2)
        | .ordered n => (padOrdinal n ++ ". ", attrs.indent + 4)
      .ok (.stacked stack bot
             (.inline (.listItem kind .startItem) ⟨attrs.style, bullet.2⟩),
           data,
           (if st = .itemBlock then [.raw "\n"] else [])
             ++ writeIndent attrs.indent ++ [.raw bullet.1])
  | .stacked stack bot (.inline (.listItem kind st) attrs), .start .paragraph =>
      .ok (.stacked (.inline (.listItem kind .itemBlock) attrs :: stack) bot
             (.inline .inlineText attrs),
           data,
           if st ≠ .startItem then [.raw "\n"] ++ writeIndent attrs.indent else [])
  | .stacked stack bot (.inline (.listItem kind _) attrs), .start (.codeBlock ck) =>
      let cb := writeStartCodeBlock settings attrs.indent attrs.style ck
      .ok (.stacked (.inline (.listItem kind .itemBlock) attrs :: stack) bot cb.1,
           data,
           [.raw "\n"] ++ cb.2)
  | .stacked stack bot (.inline (.listItem kind _) attrs), .rule =>
      .ok (.stacked stack bot (.inline (.listItem kind .itemBlock) attrs),
           data,
           [.raw "\n"] ++ writeIndent attrs.indent
             ++ writeRule caps (settings.terminalSize.columns - attrs.indent)
             ++ [.raw "\n"])
  | .stacked stack bot (.inline (.listItem kind st) attrs), .start (.heading level) =>
      let h := writeStartHeading caps attrs.style level
      .ok (.stacked (.inline (.listItem kind .itemBlock) attrs :: stack) bot h.1,
           data,
           (if st ≠ .startItem then [.raw "\n"] ++ writeIndent attrs.indent else [])
             ++ h.2)
  | .stacked stack bot (.inline (.listItem kind _) attrs), .start (.list start) =>
      let nestedKind := match start with
        | none => ListItemKind.unordered
        | some n => ListItemKind.ordered n
      .ok (.stacked (.inline (.listItem kind .itemBlock) attrs :: stack) bot
             (.inline (.listItem nestedKind .startItem) attrs),
           data,
           [.raw "\n"])
  | .stacked stack bot (.inline (.listItem kind _) attrs), .start .blockQuote =>
      .ok (.stacked (.inline (.listItem kind .itemBlock) attrs :: stack) bot
             (.styledBlock (StyledBlockAttrs.fromInline attrs).withoutMarginBefore.blockQuote),
           data,
           [.raw "\n"])
  | .stacked stack bot (.inline (.listItem kind st) attrs), .endTag .item =>
      let next := match kind with
        | .unordered => (ListItemKind.unordered, attrs.indent - 2)
        | .ordered n => (ListItemKind.ordered (n + 1), attrs.indent - 4)
      .ok (.stacked stack bot (.inline (.listItem next.1 st) ⟨attrs.style, next.2⟩),
           data,
           if st ≠ .itemBlock then [.raw "\n"] else [])

  -- Literal blocks without highlighting
  | .stacked stack bot (.literalBlock attrs), .text t =>
      .ok (.stacked stack bot (.literalBlock attrs),
           data,
           ((linesWithEndings t).map (fun line =>
             writeStyled caps attrs.style line
               ++ (if endsWithNewline line then writeIndent attrs.indent else []))).flatten)
  | .stacked stack bot (.literalBlock _), .endTag (.codeBlock _) =>
      .ok (State.pop stack bot, data, writeBorder caps settings.terminalSize)

  -- Highlighted code blocks
  | .stacked stack bot (.highlightBlock attrs), .text t =>
      let step := fun (acc : Nat × Nat × List Out) (line : String) =>
        (acc.1 + 1, acc.2.1 + 1,
         acc.2.2 ++ [Out.highlighted acc.1 acc.2.1 line]
           ++ (if endsWithNewline t then writeIndent attrs.indent else []))
      let res := (linesWithEndings t).foldl step (attrs.parseState, attrs.highlightState, [])
      .ok (.stacked stack bot
             (.highlightBlock { attrs with parseState := res.1, highlightState := res.2.1 }),
           data, res.2.2)
  | .stacked stack bot (.highlightBlock _), .endTag (.codeBlock _) =>
      .ok (State.pop stack bot, data, writeBorder caps settings.terminalSize)

  -- Inline markup
  | .stacked stack bot (.inline st attrs), .start .emphasis =>
      .ok (.stacked (.inline st attrs :: stack) bot
             (.inline st ⟨{ attrs.style with isItalic := !attrs.style.isItalic },
                          attrs.indent⟩),
           data, [])
  | .stacked stack bot (.inline _ _), .endTag .emphasis =>
      .ok (State.pop stack bot, data, [])
  | .stacked stack bot (.inline st attrs), .start .strong =>
      .ok (.stacked (.inline st attrs :: stack) bot
             (.inline st ⟨attrs.style.bold, attrs.indent⟩),
           data, [])
  | .stacked stack bot (.inline _ _), .endTag .strong =>
      .ok (State.pop stack bot, data, [])
  | .stacked stack bot (.inline st attrs), .start .strikethrough =>
      .ok (.stacked (.inline st attrs :: stack) bot
             (.inline st ⟨attrs.style.strike, attrs.indent⟩),
           data, [])
  | .stacked stack bot (.inline _ _), .endTag .strikethrough =>
      .ok (State.pop stack bot, data, [])
  | .stacked stack bot (.inline st attrs), .code c =>
      .ok (.stacked stack bot (.inline st attrs),
           data,
           writeStyled caps (attrs.style.withFg .yellow) c)
  | .stacked stack bot (.inline (.listItem kind st) attrs), .taskListMarker checked =>
      .ok (.stacked stack bot (.inline (.listItem kind st) attrs),
           data,
           writeStyled caps attrs.style (if checked then "☑ " else "☐ "))
  -- Inline line breaks
  | .stacked stack bot (.inline st attrs), .softBreak =>
      .ok (.stacked stack bot (.inline st attrs),
           data, [.raw "\n"] ++ writeIndent attrs.indent)
  | .stacked stack bot (.inline st attrs), .hardBreak =>
      .ok (.stacked stack bot (.inline st attrs),
           data, [.raw "\n"] ++ writeIndent attrs.indent)
  -- Inline text
  | .stacked stack bot (.inline (.listItem kind .itemBlock) attrs), .text t =>
      .ok (.stacked stack bot (.inline (.listItem kind .itemText) attrs),
           data,
           writeIndent attrs.indent ++ writeStyled caps attrs.style t)
  | .stacked stack bot (.inline st attrs), .text t =>
      .ok (.stacked stack bot (.inline st attrs),
           data,
           writeStyled caps attrs.style t)
  -- Inline HTML
  | .stacked stack bot (.inline (.listItem kind .itemBlock) attrs), .html h =>
      .ok (.stacked stack bot (.inline (.listItem kind .itemText) attrs),
           data,
           writeIndent attrs.indent ++ writeStyled caps (attrs.style.withFg .green) h)
  | .stacked stack bot (.inline st attrs), .html h =>
      .ok (.stacked stack bot (.inline st attrs),
           data,
           writeStyled caps (attrs.style.withFg .green) h)
  -- Ending inline text
  | .stacked stack bot (.inline _ _), .endTag .paragraph =>
      .ok (State.pop stack bot, data, [.raw "\n"])
  | .stacked stack bot (.inline _ _), .endTag (.heading _) =>
      .ok (State.pop stack bot, data, [.raw "\n"])

  -- Links
  | .stacked stack bot (.inline st attrs), .start (.link lt target _) =>
      let res : InlineState × List Out := match caps.links with
        | some .osc8 =>
            let url := match lt with
              | .email => some ("mailto:" ++ target)
              | _ => env.resolveReference target
            match url with
            | some u => (.inlineLink .osc8, [.osc8Open u env.hostname])
            | none => (.inlineText, [])
        | none => (.inlineText, [])
      .ok (.stacked (.inline st attrs :: stack) bot
             (.inline res.1 ⟨attrs.style.withFg .blue, attrs.indent⟩),
           data, res.2)
  | .stacked stack bot (.inline (.inlineLink .osc8) _), .endTag (.link _ _ _) =>
      .ok (State.pop stack bot, data, [.osc8Close])
  -- Closing email or autolinks in inline text just pops.
  | .stacked stack bot (.inline .inlineText _), .endTag (.link .autolink _ _) =>
      .ok (State.pop stack bot, data, [])
  | .stacked stack bot (.inline .inlineText _), .endTag (.link .email _ _) =>
      .ok (State.pop stack bot, data, [])
  | .stacked stack bot (.inline .inlineText attrs), .endTag (.link _ target title) =>
      let added := data.addLink target title .blue
      .ok (State.pop stack bot,
           added.1,
           writeStyled caps (attrs.style.withFg .blue)
             ("[" ++ toString added.2 ++ "]"))

  -- Images
  | .stacked stack bot (.inline st attrs), .start (.image _ link _) =>
      let resolved := env.resolveReference link
      let rendered : Option (StackedState × List Out) :=
        match settings.terminalCapabilities.image, resolved with
        | some .terminology, some url =>
            some (.renderedImage, [.terminologyImage url])
        | some .iterm2, some url =>
            if settings.iterm2RenderOk url then
              some (.renderedImage, [.iterm2Image url])
            else none
        | some .kitty, some url =>
            match settings.terminalSize.pixels with
            | some _ =>
                if settings.kittyRenderOk url then
                  some (.renderedImage, [.kittyImage url])
                else none
            | none => none
        | none, some url =>
            match st with
            | .inlineLink _ => none
            | _ =>
                match caps.links with
                | some .osc8 =>
                    some (.inline (.inlineLink .osc8)
                            ⟨attrs.style.withFg .purple, attrs.indent⟩,
                          [.osc8Open url env.hostname])
                | none => none
        | _, none => none
      let fallback : StackedState × List Out :=
        match rendered with
        | some r => r
        | none =>
            (.inline .inlineText
               ⟨(match st with
                 | .inlineLink _ => attrs.style
                 | _ => attrs.style.withFg .purple), attrs.indent⟩,
             [])
      .ok (.stacked (.inline st attrs :: stack) bot fallback.1, data, fallback.2)
  | .stacked stack bot .renderedImage, .text _ =>
      .ok (.stacked stack bot .renderedImage, data, [])
  | .stacked stack bot .renderedImage, .endTag (.image _ _ _) =>
      .ok (State.pop stack bot, data, [])
  | .stacked stack bot (.inline st attrs), .endTag (.image _ target title) =>
      match st with
      | .inlineLink .osc8 =>
          .ok (State.pop stack bot, data, [.osc8Close])
      | _ =>
          let added := data.addLink target title .purple
          .ok (State.pop stack bot,
               added.1,
               writeStyled caps (attrs.style.withFg .purple)
                 ("[" ++ toString added.2 ++ "]"))

  -- Unconditional returns to previous states
  | .stacked stack bot _, .endTag .blockQuote =>
      .ok (State.pop stack bot, data, [])
  | .stacked stack bot _, .endTag (.list _) =>
      .ok (State.pop stack bot, data, [])

  -- Impossible events
  | _, _ => .error .contractViolation

/-- `finish` of `src/render/mod.rs`: at top level flush the pending link
references, in any other state fail the contract. -/
def finish (settings : Settings) (_env : Environment) (state : State)
    (data : StateData) : Except RenderErr (List Out) :=
  match state with
  | .topLevel _ =>
      .ok (writeLinkRefs settings.terminalCapabilities data.pendingLinkDefinitions)
  | _ => .error .contractViolation

/-- Feed a list of events through `writeEvent`, concatenating the writes. -/
def run (settings : Settings) (env : Environment) (state : State)
    (data : StateData) : List Event → Except RenderErr (State × StateData × List Out)
  | [] => .ok (state, data, [])
  | e :: es =>
      match writeEvent settings env state data e with
      | .error err => .error err
      | .ok (s1, d1, o1) =>
          match run settings env s1 d1 es with
          | .error err => .error err
          | .ok (s2, d2, o2) => .ok (s2, d2, o1 ++ o2)


/-- All raw bytes of an output token list: `some` of the concatenation when
every write was a plain byte write, `none` when any capability escape
sequence was emitted. -/
def rawBytes : List Out → Option String
  | [] => some ""
  | .raw s :: rest => (rawBytes rest).map (fun t => s ++ t)
  | _ => none

/-- The depth change a single transition must produce: a `Start` other than
`Start(Item)` pushes exactly one frame, an `End` other than `End(Item)`
pops exactly one frame, and every other event (including `Start(Item)` and
`End(Item)`, which replace the current frame in place) leaves the depth
unchanged. -/
def depthSpec (s : State) (e : Event) (s1 : State) : Prop :=
  match e with
  | .start t => if t = .item then s1.depth = s.depth else s1.depth = s.depth + 1
  | .endTag t => if t = .item then s1.depth = s.depth else s1.depth + 1 = s.depth
  | _ => s1.depth = s.depth

/-- Events that push a frame. -/
def isPushEvent : Event → Bool
  | .start t => t ≠ .item
  | _ => false

/-- Events that pop a frame. -/
def isPopEvent : Event → Bool
  | .endTag t => t ≠ .item
  | _ => false

/-- Number of frame pushes an event list performs. -/
def pushCount (es : List Event) : Nat := (es.filter isPushEvent).length

/-- Number of frame pops an event list performs. -/
def popCount (es : List Event) : Nat := (es.filter isPopEvent).length

/-- `keepsAbove k`: running the events never leaves fewer than `k` frames on
the stack (checked after every transition), and never hits a contract
violation. -/
def keepsAbove (settings : Settings) (env : Environment) (k : Nat) (state : State)
    (data : StateData) : List Event → Bool
  | [] => true
  | e :: es =>
      match writeEvent settings env state data e with
      | .error _ => false
      | .ok (s1, d1, _) => k ≤ s1.depth && keepsAbove settings env k s1 d1 es


/-- `xs` consists of some frames stacked on top of `l`. -/
def extendsBelow (l xs : List StackedState) : Prop := ∃ p, xs = p ++ l


/-- The `(state, event)` pairings covered by a transition rule of
`write_event`: one `true` arm per rule of the source match, in source
order, and `false` for the catch-all `panic!` arm. -/
def covered : State → Event → Bool
  | .topLevel _, .start .paragraph => true
  | .topLevel _, .start (.heading _) => true
  | .topLevel _, .start .blockQuote => true
  | .topLevel _, .rule => true
  | .topLevel _, .start (.codeBlock _) => true
  | .topLevel _, .start (.list _) => true
  | .topLevel _, .html _ => true
  | .stacked _ _ (.styledBlock _), .start .paragraph => true
  | .stacked _ _ (.styledBlock _), .start .blockQuote => true
  | .stacked _ _ (.styledBlock _), .rule => true
  | .stacked _ _ (.styledBlock _), .start (.heading _) => true
  | .stacked _ _ (.styledBlock _), .start (.list _) => true
  | .stacked _ _ (.styledBlock _), .start (.codeBlock _) => true
  | .stacked _ _ (.styledBlock _), .html _ => true
  | .stacked _ _ (.inline (.listItem _ _) _), .start .item => true
  | .stacked _ _ (.inline (.listItem _ _) _), .start .paragraph => true
  | .stacked _ _ (.inline (.listItem _ _) _), .start (.codeBlock _) => true
  | .stacked _ _ (.inline (.listItem _ _) _), .rule => true
  | .stacked _ _ (.inline (.listItem _ _) _), .start (.heading _) => true
  | .stacked _ _ (.inline (.listItem _ _) _), .start (.list _) => true
  | .stacked _ _ (.inline (.listItem _ _) _), .start .blockQuote => true
  | .stacked _ _ (.inline (.listItem _ _) _), .endTag .item => true
  | .stacked _ _ (.literalBlock _), .text _ => true
  | .stacked _ _ (.literalBlock _), .endTag (.codeBlock _) => true
  | .stacked _ _ (.highlightBlock _), .text _ => true
  | .stacked _ _ (.highlightBlock _), .endTag (.codeBlock _) => true
  | .stacked _ _ (.inline _ _), .start .emphasis => true
  | .stacked _ _ (.inline _ _), .endTag .emphasis => true
  | .stacked _ _ (.inline _ _), .start .strong => true
  | .stacked _ _ (.inline _ _), .endTag .strong => true
  | .stacked _ _ (.inline _ _), .start .strikethrough => true
  | .stacked _ _ (.inline _ _), .endTag .strikethrough => true
  | .stacked _ _ (.inline _ _), .code _ => true
  | .stacked _ _ (.inline (.listItem _ _) _), .taskListMarker _ => true
  | .stacked _ _ (.inline _ _), .softBreak => true
  | .stacked _ _ (.inline _ _), .hardBreak => true
  | .stacked _ _ (.inline _ _), .text _ => true
  | .stacked _ _ (.inline _ _), .html _ => true
  | .stacked _ _ (.inline _ _), .endTag .paragraph => true
  | .stacked _ _ (.inline _ _), .endTag (.heading _) => true
  | .stacked _ _ (.inline _ _), .start (.link _ _ _) => true
  | .stacked _ _ (.inline (.inlineLink _) _), .endTag (.link _ _ _) => true
  | .stacked _ _ (.inline .inlineText _), .endTag (.link .autolink _ _) => true
  | .stacked _ _ (.inline .inlineText _), .endTag (.link .email _ _) => true
  | .stacked _ _ (.inline .inlineText _), .endTag (.link _ _ _) => true
  | .stacked _ _ (.inline _ _), .start (.image _ _ _) => true
  | .stacked _ _ .renderedImage, .text _ => true
  | .stacked _ _ .renderedImage, .endTag (.image _ _ _) => true
  | .stacked _ _ (.inline _ _), .endTag (.image _ _ _) => true
  | .stacked _ _ _, .endTag .blockQuote => true
  | .stacked _ _ _, .endTag (.list _) => true
  | _, _ => false

/-- A context with no special terminal capabilities: no ANSI styling, no
hyperlinks, no image protocol, no highlighter. -/
def plainSettings : Settings :=
  { terminalCapabilities := { styleAnsi := false, links := none, image := none },
    terminalSize := { columns := 80, pixels := none },
    highlightAvailable := fun _ => false,
    iterm2RenderOk := fun _ => true,
    kittyRenderOk := fun _ => true }

/-- An environment in which no reference resolves. -/
def plainEnv : Environment := { resolveReference := fun _ => none, hostname := "host" }

/-- An environment in which every reference resolves to itself. -/
def selfEnv : Environment := { resolveReference := fun s => some s, hostname := "host" }

/-- The state at the start of a document render. -/
def initialState : State := .topLevel {}

/-- A context with ANSI styling and a highlighter for every fence, but no
hyperlink and no image capability. -/
def highlightSettings : Settings :=
  { terminalCapabilities := { styleAnsi := true, links := none, image := none },
    terminalSize := { columns := 80, pixels := none },
    highlightAvailable := fun _ => true,
    iterm2RenderOk := fun _ => true,
    kittyRenderOk := fun _ => true }

/-- A context with the kitty image protocol and the OSC8 hyperlink
capability, but no pixel-size information, so kitty rendering must fail. -/
def kittyNoPixelSettings : Settings :=
  { terminalCapabilities := { styleAnsi := false, links := some .osc8, image := some .kitty },
    terminalSize := { columns := 80, pixels := none },
    highlightAvailable := fun _ => false,
    iterm2RenderOk := fun _ => true,
    kittyRenderOk := fun _ => true }

/-- Entering a highlighted code block inside a list item (the bullet arm of
`write_event` sets the indent to 2). -/
def codeBlockPrefixEvents : List Event :=
  [.start (.list none), .start .item, .start (.codeBlock (.fenced "rust"))]

/-- `std::io::ErrorKind`, restricted to what `Resource::read` needs. -/
inductive IOErrorKind
  | permissionDenied | notFound | other
  deriving DecidableEq, Repr

/-- `Resource` of `src/resources.rs`: a local file by absolute path, or a
remote URL. -/
inductive Resource
  | localFile (path : String)
  | remote (url : String)
  deriving DecidableEq, Repr

/-- `Resource::read`.  The file system and the network are external; they
enter the model as oracles (`fs` combines `File::open` and `read_to_end`:
the complete contents or the propagated error).  The network oracle is an
argument only so that independence from it is expressible; the source
performs no network access in `read`. -/
def Resource.read (r : Resource) (fs _net : String → Except IOErrorKind (List Nat)) :
    Except IOErrorKind (List Nat) :=
  match r with
  | .remote _ => .error .permissionDenied
  | .localFile p => fs p


/-- Plain inline attributes for the style-composition scenario. -/
def c6Plain : InlineAttrs := ⟨Style.new, 0⟩

/-- Italic-only inline attributes. -/
def c6Italic : InlineAttrs := ⟨{ Style.new with isItalic := true }, 0⟩

/-- Bold-plus-italic inline attributes. -/
def c6BoldItalic : InlineAttrs := ⟨{ Style.new with isBold := true, isItalic := true }, 0⟩

/-- Inline text at the top of a paragraph, plain style. -/
def c6State0 : State := .stacked [] ⟨.margin⟩ (.inline .inlineText c6Plain)

/-- After `Start(Emphasis)`: italic text, plain frame pushed. -/
def c6State1 : State :=
  .stacked [.inline .inlineText c6Plain] ⟨.margin⟩ (.inline .inlineText c6Italic)

/-- After `Start(Strong)` inside the emphasis: bold italic text, italic
frame pushed. -/
def c6State2 : State :=
  .stacked [.inline .inlineText c6Italic, .inline .inlineText c6Plain] ⟨.margin⟩
    (.inline .inlineText c6BoldItalic)


/-- The style the `Start(Image)` fallback path uses for the plain-text
degradation: inside an inline link the style is kept (the blue link
colour), otherwise the image colour purple is added (source lines 625-634). -/
def imageFallbackStyle (st : InlineState) (s : Style) : Style :=
  match st with
  | .inlineLink _ => s
  | _ => s.withFg .purple

/-- A context with the OSC8 hyperlink capability and nothing else. -/
def osc8Settings : Settings :=
  { terminalCapabilities := { styleAnsi := false, links := some .osc8, image := none },
    terminalSize := { columns := 80, pixels := none },
    highlightAvailable := fun _ => false,
    iterm2RenderOk := fun _ => true,
    kittyRenderOk := fun _ => true }

theorem depth_topLevel (a : TopLevelAttrs) : (State.topLevel a).depth = 0 := rfl

theorem depth_stacked (fs : List StackedState) (b : TopLevelAttrs) (c : StackedState) :
    (State.stacked fs b c).depth = fs.length + 1 := rfl

theorem pop_depth (fs : List StackedState) (b : TopLevelAttrs) :
    (State.pop fs b).depth = fs.length := by
  cases fs <;> simp [State.pop, State.depth]

set_option maxHeartbeats 2000000 in
theorem depth_step (settings : Settings) (env : Environment) (s : State)
    (d : StateData) (e : Event) (r : State × StateData × List Out)
    (h : writeEvent settings env s d e = .ok r) : depthSpec s e r.1 := by
  simp only [writeEvent] at h
  split at h <;>
    (try split at h) <;>
    first
      | (simp only [Except.ok.injEq] at h; subst h;
         simp [depthSpec, pop_depth, depth_topLevel, depth_stacked])
      | simp at h

theorem extendsBelow_refl (l : List StackedState) : extendsBelow l l := ⟨[], rfl⟩

theorem extendsBelow_trans {l m xs : List StackedState}
    (h1 : extendsBelow l m) (h2 : extendsBelow m xs) : extendsBelow l xs := by
  obtain ⟨p, rfl⟩ := h1
  obtain ⟨q, rfl⟩ := h2
  exact ⟨q ++ p, (List.append_assoc q p l).symm⟩

theorem extendsBelow_nil (xs : List StackedState) : extendsBelow [] xs :=
  ⟨xs, (List.append_nil xs).symm⟩

theorem extendsBelow_tail {l xs : List StackedState}
    (h : extendsBelow l xs) (hlen : l.length < xs.length) :
    extendsBelow l xs.tail := by
  obtain ⟨p, rfl⟩ := h
  cases p with
  | nil => simp at hlen
  | cons a p => exact ⟨p, by simp⟩

theorem extendsBelow_eq_cons {l xs : List StackedState}
    (h : extendsBelow l xs) (hlen : xs.length = l.length + 1) :
    ∃ a, xs = a :: l := by
  obtain ⟨p, rfl⟩ := h
  cases p with
  | nil => simp at hlen
  | cons a p =>
      refine ⟨a, ?_⟩
      simp only [List.length_append, List.length_cons] at hlen
      have : p = [] := List.eq_nil_of_length_eq_zero (by omega)
      subst this
      rfl

theorem stackOf_length (s : State) : s.stackOf.length = s.depth := by
  cases s <;> simp [State.stackOf, State.depth]

theorem pop_stackOf (fs : List StackedState) (b : TopLevelAttrs) :
    (State.pop fs b).stackOf = fs := by
  cases fs <;> simp [State.pop, State.stackOf]

theorem pop_botOf (fs : List StackedState) (b : TopLevelAttrs) :
    (State.pop fs b).botOf = b := by
  cases fs <;> simp [State.pop, State.botOf]

theorem stackOf_topLevel (a : TopLevelAttrs) : (State.topLevel a).stackOf = [] := rfl

theorem stackOf_stacked (fs : List StackedState) (b : TopLevelAttrs) (c : StackedState) :
    (State.stacked fs b c).stackOf = c :: fs := rfl

theorem botOf_topLevel (a : TopLevelAttrs) : (State.topLevel a).botOf = a := rfl

theorem botOf_stacked (fs : List StackedState) (b : TopLevelAttrs) (c : StackedState) :
    (State.stacked fs b c).botOf = b := rfl

set_option maxHeartbeats 2000000 in
/-- Every transition only stacks onto, replaces the top of, or pops the
current stack: the frames below the current one survive, and for a nested
state the bottom attributes survive as well. -/
theorem step_below (settings : Settings) (env : Environment) (s : State)
    (d : StateData) (e : Event) (r : State × StateData × List Out)
    (h : writeEvent settings env s d e = .ok r) :
    extendsBelow s.stackOf.tail r.1.stackOf ∧ (1 ≤ s.depth → r.1.botOf = s.botOf) := by
  simp only [writeEvent] at h
  split at h <;>
    (try split at h) <;>
    first
      | (simp only [Except.ok.injEq] at h; subst h;
         simp [stackOf_topLevel, stackOf_stacked, botOf_topLevel, botOf_stacked,
               pop_stackOf, pop_botOf, depth_topLevel, depth_stacked];
         first
           | exact extendsBelow_nil _
           | exact extendsBelow_refl _
           | exact ⟨[_], rfl⟩
           | exact ⟨[_, _], rfl⟩)
      | simp at h


set_option maxHeartbeats 2000000 in
/-- Every successful `End` transition other than `End(Item)` starts from a
nested state and pops the stack, nothing else. -/
theorem end_pop (settings : Settings) (env : Environment) (s : State)
    (d : StateData) (t : Tag) (r : State × StateData × List Out)
    (h : writeEvent settings env s d (.endTag t) = .ok r) (ht : t ≠ .item) :
    ∃ fs b cur, s = .stacked fs b cur ∧ r.1 = State.pop fs b := by
  simp only [writeEvent] at h
  split at h <;>
    (try split at h) <;>
    first
      | exact absurd rfl ht
      | (simp only [Except.ok.injEq] at h; subst h;
         exact ⟨_, _, _, rfl, rfl⟩)
      | (simp at h; done)
      | (exfalso; simp_all)

set_option maxHeartbeats 2000000 in
/-- Every successful `Start` transition other than `Start(Item)` pushes
exactly one frame: from the top level it pushes the margin-pending
top-level frame, from a nested state it pushes a frame carrying exactly the
indent and style of the current frame. -/
theorem start_push (settings : Settings) (env : Environment) (s : State)
    (d : StateData) (t : Tag) (r : State × StateData × List Out)
    (h : writeEvent settings env s d (.start t) = .ok r) (ht : t ≠ .item) :
    (∃ a c, s = .topLevel a ∧ r.1 = .stacked [] TopLevelAttrs.withMargin c) ∨
    (∃ fs b cur f c, s = .stacked fs b cur ∧ r.1 = .stacked (f :: fs) b c ∧
       f.curIndent = cur.curIndent ∧ f.curStyle = cur.curStyle) := by
  simp only [writeEvent] at h
  split at h <;>
    (try split at h) <;>
    first
      | exact absurd rfl ht
      | (simp only [Except.ok.injEq] at h; subst h;
         left; exact ⟨_, _, rfl, rfl⟩)
      | (simp only [Except.ok.injEq] at h; subst h;
         right;
         refine ⟨_, _, _, _, _, rfl, rfl, ?_, ?_⟩ <;>
           simp [StackedState.curIndent, StackedState.curStyle,
                 StyledBlockAttrs.withMarginBefore])
      | (simp at h; done)
      | (exfalso; simp_all)


/-- Frame accounting along a run: initial depth plus pushes equals final
depth plus pops. -/
theorem run_accounting (settings : Settings) (env : Environment) :
    ∀ (es : List Event) (s : State) (d : StateData) (r : State × StateData × List Out),
    run settings env s d es = .ok r →
    s.depth + pushCount es = r.1.depth + popCount es := by
  intro es
  induction es with
  | nil =>
      intro s d r h
      simp only [run, Except.ok.injEq] at h
      subst h
      simp [pushCount, popCount]
  | cons e es ih =>
      intro s d r h
      cases hw : writeEvent settings env s d e with
      | error err => simp [run, hw] at h
      | ok x =>
          obtain ⟨s1, d1, o1⟩ := x
          cases hr : run settings env s1 d1 es with
          | error err => simp [run, hw, hr] at h
          | ok y =>
              simp only [run, hw, hr, Except.ok.injEq] at h
              subst h
              have hd := depth_step settings env s d e _ hw
              have hacc := ih s1 d1 y hr
              cases e <;>
                (try (rename_i t; by_cases hti : t = Tag.item)) <;>
                simp_all [depthSpec, pushCount, popCount, isPushEvent, isPopEvent,
                          List.filter_cons] <;>
                omega

/-- Frames below a level the run never drops under are preserved, and so
are the bottom attributes. -/
theorem run_below (settings : Settings) (env : Environment) :
    ∀ (es : List Event) (s : State) (d : StateData) (l : List StackedState)
      (r : State × StateData × List Out),
    run settings env s d es = .ok r →
    keepsAbove settings env (l.length + 1) s d es = true →
    extendsBelow l s.stackOf →
    l.length < s.depth →
    extendsBelow l r.1.stackOf ∧ r.1.botOf = s.botOf ∧ l.length < r.1.depth := by
  intro es
  induction es with
  | nil =>
      intro s d l r h hk hb hd
      simp only [run, Except.ok.injEq] at h
      subst h
      exact ⟨hb, rfl, hd⟩
  | cons e es ih =>
      intro s d l r h hk hb hd
      cases hw : writeEvent settings env s d e with
      | error err => simp [run, hw] at h
      | ok x =>
          obtain ⟨s1, d1, o1⟩ := x
          simp only [keepsAbove, hw, Bool.and_eq_true, decide_eq_true_eq] at hk
          obtain ⟨hk1, hk2⟩ := hk
          cases hr : run settings env s1 d1 es with
          | error err => simp [run, hw, hr] at h
          | ok y =>
              simp only [run, hw, hr, Except.ok.injEq] at h
              subst h
              have hstep := step_below settings env s d e _ hw
              have hlen : s.stackOf.length = s.depth := stackOf_length s
              have hb1 : extendsBelow l s1.stackOf :=
                extendsBelow_trans
                  (extendsBelow_tail hb (by omega)) hstep.1
              have hbot1 : s1.botOf = s.botOf := hstep.2 (by omega)
              have hd1 : l.length < s1.depth := by omega
              have := ih s1 d1 l y hr hk2 hb1 hd1
              exact ⟨this.1, this.2.1.trans hbot1, this.2.2⟩

/-- After a matching `Start`/`End` pair (any non-`Item` tags, with the
inner events keeping the stack strictly above the level opened by the
`Start` and returning to it), the indent and style in force are exactly
those in force before the `Start`. -/
theorem restore_attrs (settings : Settings) (env : Environment) (s : State)
    (d : StateData) (t : Tag) (inner : List Event) (t' : Tag)
    (s1 : State) (d1 : StateData) (o1 : List Out)
    (s2 : State) (d2 : StateData) (o2 : List Out)
    (r : State × StateData × List Out)
    (ht : t ≠ .item) (ht' : t' ≠ .item)
    (h1 : writeEvent settings env s d (.start t) = .ok (s1, d1, o1))
    (h2 : run settings env s1 d1 inner = .ok (s2, d2, o2))
    (hk : keepsAbove settings env s1.depth s1 d1 inner = true)
    (h4 : s2.depth = s1.depth)
    (h5 : writeEvent settings env s2 d2 (.endTag t') = .ok r) :
    r.1.indentOf = s.indentOf ∧ r.1.styleOf = s.styleOf := by
  rcases start_push settings env s d t _ h1 ht with
    ⟨a, c, rfl, hs1⟩ | ⟨fs, b, cur, f, c, rfl, hs1, hfi, hfs⟩
  · -- started from the top level
    simp only at hs1
    subst hs1
    have hrb := run_below settings env inner _ d1 [] _ h2 hk
      (extendsBelow_nil _) (by simp [depth_stacked])
    obtain ⟨fs2, b2, cur2, hs2, hr⟩ := end_pop settings env s2 d2 t' r h5 ht'
    subst hs2
    have hfs2 : fs2 = [] := by
      have := h4
      simp only [depth_stacked, List.length_nil] at this
      exact List.eq_nil_of_length_eq_zero (by omega)
    subst hfs2
    rw [hr]
    simp [State.pop, State.indentOf, State.styleOf]
  · -- started from a nested state
    simp only at hs1
    subst hs1
    have hrb := run_below settings env inner _ d1 (f :: fs) _ h2 hk
      ⟨[c], rfl⟩ (by simp only [depth_stacked, List.length_cons]; omega)
    obtain ⟨fs2, b2, cur2, hs2, hr⟩ := end_pop settings env s2 d2 t' r h5 ht'
    subst hs2
    have hrb1 : extendsBelow (f :: fs) (State.stacked fs2 b2 cur2).stackOf := by
      have := hrb.1
      simpa using this
    have hstk : ∃ a2, (State.stacked fs2 b2 cur2).stackOf = a2 :: (f :: fs) := by
      apply extendsBelow_eq_cons hrb1
      have := h4
      simp only [depth_stacked, List.length_cons] at this
      simp only [stackOf_stacked, List.length_cons]
      omega
    obtain ⟨a2, ha2⟩ := hstk
    simp only [stackOf_stacked, List.cons.injEq] at ha2
    have hfs2 : fs2 = f :: fs := ha2.2
    subst hfs2
    rw [hr]
    simp only [State.pop, State.indentOf, State.styleOf]
    exact ⟨hfi, hfs⟩

/-- **C3**: from the initial top-level state with no special capabilities,
the event sequence `Start(Paragraph), Text("A"), End(Paragraph),
Start(Paragraph), Text("B"), End(Paragraph)` writes exactly the bytes
`"A\n\nB\n"`: no blank line before the first paragraph and exactly one
blank line between the two. -/
theorem c3_two_paragraphs :
    run plainSettings plainEnv initialState StateData.initial
        [.start .paragraph, .text "A", .endTag .paragraph,
         .start .paragraph, .text "B", .endTag .paragraph] =
      .ok (.topLevel ⟨.margin⟩, StateData.initial,
           [.raw "A", .raw "\n", .raw "\n", .raw "B", .raw "\n"]) ∧
    rawBytes [.raw "A", .raw "\n", .raw "\n", .raw "B", .raw "\n"] = some "A\n\nB\n" := by
  exact ⟨rfl, rfl⟩

/-- **C5**: an ordered list with items `"x"`, `"y"` renders as
`" 1. x\n 2. y\n"`; in general, entering an ordered item writes its number
right-aligned to two columns followed by `". "` and raises the indent by 4,
and `End(Item)` lowers the indent by 4 and increments the number by exactly
one. -/
theorem c5_ordered_items :
    (run plainSettings plainEnv initialState StateData.initial
        [.start (.list (some 1)), .start .item, .text "x", .endTag .item,
         .start .item, .text "y", .endTag .item, .endTag (.list (some 1))] =
      .ok (.topLevel ⟨.margin⟩, StateData.initial,
           [.raw "", .raw " 1. ", .raw "x", .raw "\n",
            .raw "", .raw " 2. ", .raw "y", .raw "\n"]) ∧
     rawBytes [.raw "", .raw " 1. ", .raw "x", .raw "\n",
               .raw "", .raw " 2. ", .raw "y", .raw "\n"] = some " 1. x\n 2. y\n") ∧
    (∀ (settings : Settings) (env : Environment) (fs : List StackedState)
       (b : TopLevelAttrs) (n : Nat) (st : ListItemState) (a : InlineAttrs) (d : StateData),
      writeEvent settings env (.stacked fs b (.inline (.listItem (.ordered n) st) a)) d
          (.start .item) =
        .ok (.stacked fs b (.inline (.listItem (.ordered n) .startItem)
               ⟨a.style, a.indent + 4⟩),
             d,
             (if st = .itemBlock then [.raw "\n"] else [])
               ++ writeIndent a.indent ++ [.raw (padOrdinal n ++ ". ")])) ∧
    (∀ (settings : Settings) (env : Environment) (fs : List StackedState)
       (b : TopLevelAttrs) (n : Nat) (st : ListItemState) (a : InlineAttrs) (d : StateData),
      writeEvent settings env (.stacked fs b (.inline (.listItem (.ordered n) st) a)) d
          (.endTag .item) =
        .ok (.stacked fs b (.inline (.listItem (.ordered (n + 1)) st)
               ⟨a.style, a.indent - 4⟩),
             d,
             if st ≠ .itemBlock then [.raw "\n"] else [])) := by
  refine ⟨⟨rfl, rfl⟩, ?_, ?_⟩ <;>
    intro settings env fs b n st a d <;>
    cases st <;> rfl

/-- **C6**: `Start(Emphasis)` toggles exactly the italic attribute,
`Start(Strong)` adds exactly bold, `Start(Strikethrough)` adds exactly
strikethrough, each pushing the previous inline frame verbatim; the
matching `End` pops that frame, restoring the exact prior style.  In
particular `Strong` inside `Emphasis` composes to bold+italic and ending
`Strong` restores plain italic, not plain. -/
theorem c6_inline_style_composition :
    (∀ (settings : Settings) (env : Environment) (fs : List StackedState)
       (b : TopLevelAttrs) (st : InlineState) (a : InlineAttrs) (d : StateData),
      writeEvent settings env (.stacked fs b (.inline st a)) d (.start .emphasis) =
        .ok (.stacked (.inline st a :: fs) b
               (.inline st ⟨{ a.style with isItalic := !a.style.isItalic }, a.indent⟩),
             d, [])) ∧
    (∀ (settings : Settings) (env : Environment) (fs : List StackedState)
       (b : TopLevelAttrs) (st : InlineState) (a : InlineAttrs) (d : StateData),
      writeEvent settings env (.stacked fs b (.inline st a)) d (.start .strong) =
        .ok (.stacked (.inline st a :: fs) b
               (.inline st ⟨a.style.bold, a.indent⟩), d, [])) ∧
    (∀ (settings : Settings) (env : Environment) (fs : List StackedState)
       (b : TopLevelAttrs) (st : InlineState) (a : InlineAttrs) (d : StateData),
      writeEvent settings env (.stacked fs b (.inline st a)) d (.start .strikethrough) =
        .ok (.stacked (.inline st a :: fs) b
               (.inline st ⟨a.style.strike, a.indent⟩), d, [])) ∧
    (∀ (settings : Settings) (env : Environment) (fs : List StackedState)
       (b : TopLevelAttrs) (st : InlineState) (a : InlineAttrs) (d : StateData),
      writeEvent settings env (.stacked fs b (.inline st a)) d (.endTag .emphasis) =
        .ok (State.pop fs b, d, []) ∧
      writeEvent settings env (.stacked fs b (.inline st a)) d (.endTag .strong) =
        .ok (State.pop fs b, d, []) ∧
      writeEvent settings env (.stacked fs b (.inline st a)) d (.endTag .strikethrough) =
        .ok (State.pop fs b, d, [])) ∧
    (writeEvent plainSettings plainEnv c6State0 StateData.initial (.start .emphasis) =
       .ok (c6State1, StateData.initial, []) ∧
     writeEvent plainSettings plainEnv c6State1 StateData.initial (.start .strong) =
       .ok (c6State2, StateData.initial, []) ∧
     c6BoldItalic.style.isBold = true ∧ c6BoldItalic.style.isItalic = true ∧
     writeEvent plainSettings plainEnv c6State2 StateData.initial (.endTag .strong) =
       .ok (c6State1, StateData.initial, []) ∧
     c6Italic.style.isItalic = true ∧ c6Italic.style.isBold = false) := by
  refine ⟨?_, ?_, ?_, ?_, rfl, rfl, rfl, rfl, rfl, rfl, rfl⟩ <;>
    intro settings env fs b st a d <;>
    (try refine ⟨?_, ?_, ?_⟩) <;>
    cases st <;>
    (try rfl) <;>
    (rename_i kind lis; cases lis <;> cases kind <;> rfl)

/-- **C10**: `Resource::read` answers every remote resource with
`ErrorKind::PermissionDenied`, independently of the network, and answers a
local file with the complete contents of the file or the propagated
file-system error. -/
theorem c10_resource_read :
    (∀ (url : String) (fs net : String → Except IOErrorKind (List Nat)),
      Resource.read (.remote url) fs net = .error .permissionDenied) ∧
    (∀ (url : String) (fs net net2 : String → Except IOErrorKind (List Nat)),
      Resource.read (.remote url) fs net = Resource.read (.remote url) fs net2) ∧
    (∀ (p : String) (fs net : String → Except IOErrorKind (List Nat)),
      Resource.read (.localFile p) fs net = fs p) := by
  exact ⟨fun _ _ _ => rfl, fun _ _ _ _ => rfl, fun _ _ _ => rfl⟩

/-- **C1, counterexample**: two concrete violations of the claim as
stated.  First, the margin attribute is not restored by a matching `End`:
rendering one paragraph from the margin-free top level ends with the
margin flag set to pending.  Second, `Start(Item)` is a `Start` transition
that pushes no frame: it replaces the current frame, leaving the depth
unchanged. -/
theorem c1_margin_item_counterexample :
    (run plainSettings plainEnv (.topLevel ⟨.noMargin⟩) StateData.initial
        [.start .paragraph, .text "A", .endTag .paragraph] =
      .ok (.topLevel ⟨.margin⟩, StateData.initial, [.raw "A", .raw "\n"]) ∧
     (State.topLevel ⟨.margin⟩).marginOf ≠ (State.topLevel ⟨.noMargin⟩).marginOf) ∧
    (writeEvent plainSettings plainEnv
        (.stacked [] ⟨.noMargin⟩ (.inline (.listItem .unordered .startItem) ⟨Style.new, 0⟩))
        StateData.initial (.start .item) =
      .ok (.stacked [] ⟨.noMargin⟩ (.inline (.listItem .unordered .startItem) ⟨Style.new, 2⟩),
           StateData.initial, [.raw "", .raw "• "]) ∧
     (State.stacked [] ⟨.noMargin⟩
        (.inline (.listItem .unordered .startItem) ⟨Style.new, 2⟩)).depth =
       (State.stacked [] ⟨.noMargin⟩
        (.inline (.listItem .unordered .startItem) ⟨Style.new, 0⟩)).depth) := by
  exact ⟨⟨rfl, by decide⟩, rfl, rfl⟩


set_option maxHeartbeats 4000000 in
/-- **C7**: `write_event` fails with the fatal contract violation (the
`panic!` of the source) on every `(state, event)` pairing not covered by a
transition rule, and `finish` fails the same way in every state other than
the top level; neither ever silently continues, and the model has no
recoverable error besides this fatal one. -/
theorem c7_contract_violation_panics :
    (∀ (settings : Settings) (env : Environment) (s : State) (d : StateData) (e : Event),
      covered s e = false →
      writeEvent settings env s d e = .error .contractViolation) ∧
    (∀ (settings : Settings) (env : Environment) (s : State) (d : StateData),
      (∀ a, s ≠ .topLevel a) →
      finish settings env s d = .error .contractViolation) := by
  constructor
  · intro settings env s d e hcov
    simp only [writeEvent]
    split <;> first | rfl | (simp [covered] at hcov)
  · intro settings env s d hne
    cases s with
    | topLevel a => exact absurd rfl (hne a)
    | stacked fs b c => rfl

/-- Witness for C7 at a concrete uncovered pairing (`End(Paragraph)` at the
top level) and a concrete non-terminal final state. -/
theorem c7_contract_violation_panics_witness :
    (covered (.topLevel ⟨.noMargin⟩) (.endTag .paragraph) = false ∧
     writeEvent plainSettings plainEnv (.topLevel ⟨.noMargin⟩) StateData.initial
       (.endTag .paragraph) = .error .contractViolation) ∧
    finish plainSettings plainEnv (.stacked [] ⟨.noMargin⟩ .renderedImage) StateData.initial =
      .error .contractViolation := by
  refine ⟨⟨by decide,
           c7_contract_violation_panics.1 plainSettings plainEnv _ StateData.initial _
             (by decide)⟩,
          c7_contract_violation_panics.2 plainSettings plainEnv _ StateData.initial ?_⟩
  intro a h
  exact State.noConfusion h

/-- **C9**: pending link references are drained at exactly two points: a
`Start(Heading)` at the top level clears the buffer and writes the
reference lines first, every other transition can only leave the buffer
unchanged or append to it, and `finish` at the top level emits exactly the
buffered reference block. -/
theorem c9_reference_drain_points :
    (∀ (settings : Settings) (env : Environment) (s : State) (d : StateData)
       (e : Event) (r : State × StateData × List Out),
      writeEvent settings env s d e = .ok r →
      (match s, e with
       | .topLevel _, .start (.heading _) =>
           r.2.1.pendingLinkDefinitions = [] ∧
           ∃ rest, r.2.2 = writeLinkRefs settings.terminalCapabilities
                             d.pendingLinkDefinitions ++ rest
       | _, _ =>
           ∃ extra, r.2.1.pendingLinkDefinitions = d.pendingLinkDefinitions ++ extra)) ∧
    (∀ (settings : Settings) (env : Environment) (a : TopLevelAttrs) (d : StateData),
      finish settings env (.topLevel a) d =
        .ok (writeLinkRefs settings.terminalCapabilities d.pendingLinkDefinitions)) := by
  constructor
  · intro settings env s d e r h
    simp only [writeEvent] at h
    split at h <;>
      (try split at h) <;>
      first
        | (simp only [Except.ok.injEq] at h; subst h;
           first
             | exact ⟨rfl, _, rfl⟩
             | exact ⟨[], (List.append_nil _).symm⟩
             | exact ⟨[_], rfl⟩)
        | (simp at h; done)
  · intro settings env a d
    rfl

/-- Witness for C9: a top-level heading with one buffered reference drains
the buffer and leads with the reference block; a plain text transition
leaves the buffer untouched. -/
theorem c9_reference_drain_points_witness :
    ((match (State.topLevel ⟨.noMargin⟩ : State), (Event.start (.heading 1) : Event) with
      | .topLevel _, .start (.heading _) =>
          (StateData.takeLinks ⟨[⟨1, "https://a", "", Colour.blue⟩], 2⟩).1.pendingLinkDefinitions
              = [] ∧
          ∃ rest,
            (writeLinkRefs plainSettings.terminalCapabilities
                [⟨1, "https://a", "", Colour.blue⟩]
              ++ ((if (MarginControl.noMargin : MarginControl) ≠ .noMargin
                    then [Out.raw "\n"] else [])
                ++ (writeMark plainSettings.terminalCapabilities
                  ++ (writeStartHeading plainSettings.terminalCapabilities Style.new 1).2))) =
            writeLinkRefs plainSettings.terminalCapabilities
              [⟨1, "https://a", "", Colour.blue⟩] ++ rest
      | _, _ => True) ∧
     finish plainSettings plainEnv (.topLevel ⟨.margin⟩) ⟨[⟨1, "https://a", "", Colour.blue⟩], 2⟩ =
       .ok (writeLinkRefs plainSettings.terminalCapabilities
              [⟨1, "https://a", "", Colour.blue⟩])) := by
  exact ⟨c9_reference_drain_points.1 plainSettings plainEnv (.topLevel ⟨.noMargin⟩)
           ⟨[⟨1, "https://a", "", Colour.blue⟩], 2⟩ (.start (.heading 1)) _ rfl,
         c9_reference_drain_points.2 plainSettings plainEnv ⟨.margin⟩ _⟩

/-- **C4**: with no hyperlink capability, ending a first inline link prints
`[1]` and ending a second link with a distinct target prints `[2]`; indices
start at 1 and increase monotonically, the buffer only ever grows by the
next index (never reused, never reordered), and `finish` emits one
reference line per buffered reference in index order. -/
theorem c4_pending_reference_indices :
    (StateData.initial.nextLinkIndex = 1) ∧
    (run plainSettings plainEnv initialState StateData.initial
        [.start .paragraph,
         .start (.link .inline "https://a" ""), .text "one",
         .endTag (.link .inline "https://a" ""),
         .text " ",
         .start (.link .inline "https://b" ""), .text "two",
         .endTag (.link .inline "https://b" ""),
         .endTag .paragraph] =
      .ok (.topLevel ⟨.margin⟩,
           ⟨[⟨1, "https://a", "", .blue⟩, ⟨2, "https://b", "", .blue⟩], 3⟩,
           [.raw "one", .raw "[1]", .raw " ", .raw "two", .raw "[2]", .raw "\n"]) ∧
     rawBytes [.raw "one", .raw "[1]", .raw " ", .raw "two", .raw "[2]", .raw "\n"] =
       some "one[1] two[2]\n") ∧
    (finish plainSettings plainEnv (.topLevel ⟨.margin⟩)
        ⟨[⟨1, "https://a", "", .blue⟩, ⟨2, "https://b", "", .blue⟩], 3⟩ =
      .ok [.raw "[1]: https://a", .raw "\n", .raw "[2]: https://b", .raw "\n"] ∧
     rawBytes [.raw "[1]: https://a", .raw "\n", .raw "[2]: https://b", .raw "\n"] =
       some "[1]: https://a\n[2]: https://b\n") ∧
    (∀ (settings : Settings) (env : Environment) (s : State) (d : StateData)
       (e : Event) (r : State × StateData × List Out),
      writeEvent settings env s d e = .ok r →
      d.nextLinkIndex ≤ r.2.1.nextLinkIndex ∧
      (r.2.1.pendingLinkDefinitions = d.pendingLinkDefinitions ∨
       r.2.1.pendingLinkDefinitions = [] ∨
       (∃ target title c,
         r.2.1.pendingLinkDefinitions =
           d.pendingLinkDefinitions ++ [⟨d.nextLinkIndex, target, title, c⟩] ∧
         r.2.1.nextLinkIndex = d.nextLinkIndex + 1))) := by
  refine ⟨rfl, ⟨rfl, rfl⟩, ⟨rfl, rfl⟩, ?_⟩
  intro settings env s d e r h
  have haux : ∀ (dd : StateData) (t ti : String) (c : Colour),
      dd.nextLinkIndex ≤ (dd.addLink t ti c).1.nextLinkIndex ∧
      ((dd.addLink t ti c).1.pendingLinkDefinitions = dd.pendingLinkDefinitions ∨
       (dd.addLink t ti c).1.pendingLinkDefinitions = [] ∨
       (∃ target title c2,
         (dd.addLink t ti c).1.pendingLinkDefinitions =
           dd.pendingLinkDefinitions ++ [⟨dd.nextLinkIndex, target, title, c2⟩] ∧
         (dd.addLink t ti c).1.nextLinkIndex = dd.nextLinkIndex + 1)) :=
    fun dd t ti c => ⟨Nat.le_succ _, Or.inr (Or.inr ⟨t, ti, c, rfl, rfl⟩)⟩
  simp only [writeEvent] at h
  split at h <;>
    (try split at h) <;>
    first
      | (simp only [Except.ok.injEq] at h; subst h;
         first
           | exact haux _ _ _ _
           | exact ⟨Nat.le_refl _, Or.inl rfl⟩
           | exact ⟨Nat.le_refl _, Or.inr (Or.inl rfl)⟩)
      | (simp at h; done)

/-- Witness for C4 at a concrete transition: ending an inline link with one
reference already buffered appends index 2 and bumps the counter to 3. -/
theorem c4_pending_reference_indices_witness :
    (⟨[⟨1, "https://a", "", .blue⟩], 2⟩ : StateData).nextLinkIndex ≤
      (⟨[⟨1, "https://a", "", .blue⟩, ⟨2, "https://b", "", .blue⟩], 3⟩ : StateData).nextLinkIndex ∧
    ((⟨[⟨1, "https://a", "", .blue⟩, ⟨2, "https://b", "", .blue⟩], 3⟩ : StateData).pendingLinkDefinitions =
       (⟨[⟨1, "https://a", "", .blue⟩], 2⟩ : StateData).pendingLinkDefinitions ∨
     (⟨[⟨1, "https://a", "", .blue⟩, ⟨2, "https://b", "", .blue⟩], 3⟩ : StateData).pendingLinkDefinitions = [] ∨
     (∃ target title c,
       (⟨[⟨1, "https://a", "", .blue⟩, ⟨2, "https://b", "", .blue⟩], 3⟩ : StateData).pendingLinkDefinitions =
         (⟨[⟨1, "https://a", "", .blue⟩], 2⟩ : StateData).pendingLinkDefinitions ++
           [⟨(⟨[⟨1, "https://a", "", .blue⟩], 2⟩ : StateData).nextLinkIndex, target, title, c⟩] ∧
       (⟨[⟨1, "https://a", "", .blue⟩, ⟨2, "https://b", "", .blue⟩], 3⟩ : StateData).nextLinkIndex =
         (⟨[⟨1, "https://a", "", .blue⟩], 2⟩ : StateData).nextLinkIndex + 1)) := by
  exact c4_pending_reference_indices.2.2.2 plainSettings plainEnv
    (.stacked [] ⟨.margin⟩ (.inline .inlineText ⟨Style.new.withFg .blue, 0⟩))
    ⟨[⟨1, "https://a", "", .blue⟩], 2⟩
    (.endTag (.link .inline "https://b" ""))
    (State.pop [] ⟨.margin⟩,
     ⟨[⟨1, "https://a", "", .blue⟩, ⟨2, "https://b", "", .blue⟩], 3⟩,
     [.raw "[2]"]) rfl

/-- **C1 (amended)**: every `Start` other than `Start(Item)` pushes exactly
one frame and every `End` other than `End(Item)` pops exactly one frame
(`Start(Item)`/`End(Item)` replace the current frame in place); along any
run, depth plus pushes balances depth plus pops, so a run that `finish`
accepts has equally many pops as pushes; and after a matching `Start`/`End`
pair the indent and style in force are exactly those in force before the
`Start` (the margin flag is set to pending instead of being restored). -/
theorem c1_stack_discipline :
    (∀ (settings : Settings) (env : Environment) (s : State) (d : StateData)
       (e : Event) (r : State × StateData × List Out),
      writeEvent settings env s d e = .ok r → depthSpec s e r.1) ∧
    (∀ (settings : Settings) (env : Environment) (es : List Event) (s : State)
       (d : StateData) (r : State × StateData × List Out),
      run settings env s d es = .ok r →
      s.depth + pushCount es = r.1.depth + popCount es) ∧
    (∀ (settings : Settings) (env : Environment) (es : List Event) (d : StateData)
       (r : State × StateData × List Out) (out : List Out),
      run settings env initialState d es = .ok r →
      finish settings env r.1 r.2.1 = .ok out →
      pushCount es = popCount es) ∧
    (∀ (settings : Settings) (env : Environment) (s : State) (d : StateData)
       (t : Tag) (inner : List Event) (t' : Tag)
       (s1 : State) (d1 : StateData) (o1 : List Out)
       (s2 : State) (d2 : StateData) (o2 : List Out)
       (r : State × StateData × List Out),
      t ≠ .item → t' ≠ .item →
      writeEvent settings env s d (.start t) = .ok (s1, d1, o1) →
      run settings env s1 d1 inner = .ok (s2, d2, o2) →
      keepsAbove settings env s1.depth s1 d1 inner = true →
      s2.depth = s1.depth →
      writeEvent settings env s2 d2 (.endTag t') = .ok r →
      r.1.indentOf = s.indentOf ∧ r.1.styleOf = s.styleOf) := by
  refine ⟨fun settings env s d e r h => depth_step settings env s d e r h,
          fun settings env es s d r h => run_accounting settings env es s d r h,
          ?_,
          fun settings env s d t inner t' s1 d1 o1 s2 d2 o2 r ht ht' h1 h2 hk h4 h5 =>
            restore_attrs settings env s d t inner t' s1 d1 o1 s2 d2 o2 r
              ht ht' h1 h2 hk h4 h5⟩
  intro settings env es d r out hrun hfin
  have hacc := run_accounting settings env es initialState d r hrun
  have hr1 : ∃ a, r.1 = State.topLevel a := by
    cases hr : r.1 with
    | topLevel a => exact ⟨a, rfl⟩
    | stacked fs b c =>
        rw [hr] at hfin
        simp [finish] at hfin
  obtain ⟨a, ha⟩ := hr1
  rw [ha] at hacc
  simp only [initialState, depth_topLevel] at hacc
  omega

/-- Witness for C1 at concrete inputs: a paragraph start pushes one frame;
a paragraph open/close balances pushes and pops (also through `finish`);
and an `Emphasis` span around a text event restores indent 3 and the plain
style that were in force before the span. -/
theorem c1_stack_discipline_witness :
    depthSpec initialState (.start .paragraph)
      (State.stacked [] TopLevelAttrs.withMargin (.inline .inlineText {}),
        StateData.initial, ([] : List Out)).1 ∧
    initialState.depth + pushCount [.start .paragraph, .endTag .paragraph] =
      (State.topLevel ⟨.margin⟩, StateData.initial, [Out.raw "\n"]).1.depth +
        popCount [.start .paragraph, .endTag .paragraph] ∧
    pushCount [.start .paragraph, .endTag .paragraph] =
      popCount [.start .paragraph, .endTag .paragraph] ∧
    ((State.stacked [] ⟨.noMargin⟩ (.inline .inlineText ⟨Style.new, 3⟩),
        StateData.initial, ([] : List Out)).1.indentOf =
       (State.stacked [] ⟨.noMargin⟩ (.inline .inlineText ⟨Style.new, 3⟩)).indentOf ∧
     (State.stacked [] ⟨.noMargin⟩ (.inline .inlineText ⟨Style.new, 3⟩),
        StateData.initial, ([] : List Out)).1.styleOf =
       (State.stacked [] ⟨.noMargin⟩ (.inline .inlineText ⟨Style.new, 3⟩)).styleOf) := by
  refine ⟨c1_stack_discipline.1 plainSettings plainEnv initialState StateData.initial
            (.start .paragraph)
            (State.stacked [] TopLevelAttrs.withMargin (.inline .inlineText {}),
              StateData.initial, []) rfl,
          c1_stack_discipline.2.1 plainSettings plainEnv
            [.start .paragraph, .endTag .paragraph] initialState StateData.initial
            (State.topLevel ⟨.margin⟩, StateData.initial, [Out.raw "\n"]) rfl,
          c1_stack_discipline.2.2.1 plainSettings plainEnv
            [.start .paragraph, .endTag .paragraph] StateData.initial
            (State.topLevel ⟨.margin⟩, StateData.initial, [Out.raw "\n"]) [] rfl rfl,
          c1_stack_discipline.2.2.2 plainSettings plainEnv
            (State.stacked [] ⟨.noMargin⟩ (.inline .inlineText ⟨Style.new, 3⟩))
            StateData.initial .emphasis [.text "x"] .emphasis
            (State.stacked [.inline .inlineText ⟨Style.new, 3⟩] ⟨.noMargin⟩
              (.inline .inlineText ⟨{ Style.new with isItalic := true }, 3⟩))
            StateData.initial []
            (State.stacked [.inline .inlineText ⟨Style.new, 3⟩] ⟨.noMargin⟩
              (.inline .inlineText ⟨{ Style.new with isItalic := true }, 3⟩))
            StateData.initial [.raw "x"]
            (State.stacked [] ⟨.noMargin⟩ (.inline .inlineText ⟨Style.new, 3⟩),
              StateData.initial, [])
            (by decide) (by decide) rfl rfl (by decide) rfl rfl⟩

/-- **C2 (code bug)**: in a highlighted code block (entered inside a list
item, so the block indent is 2), the same block text `"a\nb"` fed as one
`Text` chunk versus split at the line boundary into `"a\n"`, `"b"` produces
different outputs: the split run re-emits the indent after the embedded
line terminator, the unsplit run does not, because the source tests
`text.ends_with('\n')` instead of `line.ends_with('\n')` in the highlight
arm.  Both runs succeed and end in the same state; only the bytes differ. -/
theorem c2_highlight_chunking_bug :
    run highlightSettings plainEnv initialState StateData.initial
        (codeBlockPrefixEvents ++ [.text "a\nb", .endTag (.codeBlock (.fenced "rust"))]) =
      .ok (.stacked [] ⟨.margin⟩ (.inline (.listItem .unordered .itemBlock) ⟨Style.new, 2⟩),
           StateData.initial,
           [.raw "", .raw "• ", .raw "\n", .border,
            .highlighted 0 0 "a\n", .highlighted 1 1 "b", .border]) ∧
    run highlightSettings plainEnv initialState StateData.initial
        (codeBlockPrefixEvents ++
          [.text "a\n", .text "b", .endTag (.codeBlock (.fenced "rust"))]) =
      .ok (.stacked [] ⟨.margin⟩ (.inline (.listItem .unordered .itemBlock) ⟨Style.new, 2⟩),
           StateData.initial,
           [.raw "", .raw "• ", .raw "\n", .border,
            .highlighted 0 0 "a\n", .raw "  ", .highlighted 1 1 "b", .border]) ∧
    ("a\n" ++ "b" = "a\nb") ∧
    ([.raw "", .raw "• ", .raw "\n", .border,
      .highlighted 0 0 "a\n", .highlighted 1 1 "b", .border] ≠
     ([.raw "", .raw "• ", .raw "\n", .border,
       .highlighted 0 0 "a\n", .raw "  ", .highlighted 1 1 "b", .border] : List Out)) := by
  exact ⟨rfl, rfl, rfl, by decide⟩


/-- **C8, counterexample**: with the kitty image capability present but no
terminal pixel size, a hyperlink capability available and a resolvable
target, `Start(Image)` does **not** degrade to a native hyperlink as the
claim states: it degrades directly to plain styled text (purple), emitting
no OSC8 sequence. -/
theorem c8_failure_skips_hyperlink_counterexample :
    writeEvent kittyNoPixelSettings selfEnv
        (.stacked [] ⟨.noMargin⟩ (.inline .inlineText ⟨Style.new, 0⟩)) StateData.initial
        (.start (.image .inline "https://img" "")) =
      .ok (.stacked [.inline .inlineText ⟨Style.new, 0⟩] ⟨.noMargin⟩
             (.inline .inlineText ⟨Style.new.withFg .purple, 0⟩),
           StateData.initial, []) ∧
    kittyNoPixelSettings.terminalCapabilities.links = some .osc8 ∧
    selfEnv.resolveReference "https://img" = some "https://img" ∧
    (∀ (cap : LinkCapability) (a : InlineAttrs),
      (StackedState.inline (.inlineLink cap) a) ≠
        .inline .inlineText ⟨Style.new.withFg .purple, 0⟩) := by
  refine ⟨rfl, rfl, rfl, ?_⟩
  intro cap a h
  simp at h

set_option maxHeartbeats 2000000 in
/-- **C8 (amended)**: `Start(Image)` never aborts: it always pushes the
previous inline frame and succeeds with the data unchanged.  On an
unresolvable target, or when the active image capability fails to render
(kitty without pixel size or with a failing renderer, iTerm2 with a failing
renderer), it degrades directly to plain styled text (keeping the link
colour inside an inline link, using purple otherwise); the native-hyperlink
degradation happens exactly when no image capability is active, the target
resolves, the state is not already inside a link and OSC8 is available.
The matching `End(Image)` in plain inline text buffers a pending reference
and prints the `[n]` marker in the image colour purple. -/
theorem c8_image_degradation :
    (∀ (settings : Settings) (env : Environment) (fs : List StackedState)
       (b : TopLevelAttrs) (st : InlineState) (a : InlineAttrs) (d : StateData)
       (lt : LinkType) (target title : String),
      ∃ r, writeEvent settings env (.stacked fs b (.inline st a)) d
          (.start (.image lt target title)) = .ok r ∧ r.2.1 = d ∧
        ∃ cur, r.1 = .stacked (.inline st a :: fs) b cur) ∧
    (∀ (settings : Settings) (env : Environment) (fs : List StackedState)
       (b : TopLevelAttrs) (st : InlineState) (a : InlineAttrs) (d : StateData)
       (lt : LinkType) (target title : String),
      env.resolveReference target = none →
      writeEvent settings env (.stacked fs b (.inline st a)) d
          (.start (.image lt target title)) =
        .ok (.stacked (.inline st a :: fs) b
               (.inline .inlineText ⟨imageFallbackStyle st a.style, a.indent⟩), d, [])) ∧
    (∀ (settings : Settings) (env : Environment) (fs : List StackedState)
       (b : TopLevelAttrs) (st : InlineState) (a : InlineAttrs) (d : StateData)
       (lt : LinkType) (target title url : String),
      env.resolveReference target = some url →
      settings.terminalCapabilities.image = some .kitty →
      (settings.terminalSize.pixels = none ∨ settings.kittyRenderOk url = false) →
      writeEvent settings env (.stacked fs b (.inline st a)) d
          (.start (.image lt target title)) =
        .ok (.stacked (.inline st a :: fs) b
               (.inline .inlineText ⟨imageFallbackStyle st a.style, a.indent⟩), d, [])) ∧
    (∀ (settings : Settings) (env : Environment) (fs : List StackedState)
       (b : TopLevelAttrs) (st : InlineState) (a : InlineAttrs) (d : StateData)
       (lt : LinkType) (target title url : String),
      env.resolveReference target = some url →
      settings.terminalCapabilities.image = some .iterm2 →
      settings.iterm2RenderOk url = false →
      writeEvent settings env (.stacked fs b (.inline st a)) d
          (.start (.image lt target title)) =
        .ok (.stacked (.inline st a :: fs) b
               (.inline .inlineText ⟨imageFallbackStyle st a.style, a.indent⟩), d, [])) ∧
    (∀ (settings : Settings) (env : Environment) (fs : List StackedState)
       (b : TopLevelAttrs) (st : InlineState) (a : InlineAttrs) (d : StateData)
       (lt : LinkType) (target title url : String),
      env.resolveReference target = some url →
      settings.terminalCapabilities.image = none →
      (∀ cap, st ≠ .inlineLink cap) →
      settings.terminalCapabilities.links = some .osc8 →
      writeEvent settings env (.stacked fs b (.inline st a)) d
          (.start (.image lt target title)) =
        .ok (.stacked (.inline st a :: fs) b
               (.inline (.inlineLink .osc8) ⟨a.style.withFg .purple, a.indent⟩), d,
             [.osc8Open url env.hostname])) ∧
    (∀ (settings : Settings) (env : Environment) (fs : List StackedState)
       (b : TopLevelAttrs) (st : InlineState) (a : InlineAttrs) (d : StateData)
       (lt : LinkType) (target title url : String),
      env.resolveReference target = some url →
      settings.terminalCapabilities.image = none →
      settings.terminalCapabilities.links = none →
      writeEvent settings env (.stacked fs b (.inline st a)) d
          (.start (.image lt target title)) =
        .ok (.stacked (.inline st a :: fs) b
               (.inline .inlineText ⟨imageFallbackStyle st a.style, a.indent⟩), d, [])) ∧
    (∀ (settings : Settings) (env : Environment) (fs : List StackedState)
       (b : TopLevelAttrs) (a : InlineAttrs) (d : StateData)
       (lt : LinkType) (target title : String),
      writeEvent settings env (.stacked fs b (.inline .inlineText a)) d
          (.endTag (.image lt target title)) =
        .ok (State.pop fs b, (d.addLink target title .purple).1,
             writeStyled settings.terminalCapabilities (a.style.withFg .purple)
               ("[" ++ toString d.nextLinkIndex ++ "]"))) := by
  refine ⟨?_, ?_, ?_, ?_, ?_, ?_, ?_⟩
  · intro settings env fs b st a d lt target title
    cases st <;>
      (try exact ⟨_, rfl, rfl, _, rfl⟩) <;>
      (rename_i kind lis; cases lis <;> cases kind <;> exact ⟨_, rfl, rfl, _, rfl⟩)
  · intro settings env fs b st a d lt target title hres
    cases st <;>
      (cases himg : settings.terminalCapabilities.image with
       | none => simp [writeEvent, hres, himg, imageFallbackStyle]
       | some cap =>
           cases cap <;> simp [writeEvent, hres, himg, imageFallbackStyle])
  · intro settings env fs b st a d lt target title url hres himg hfail
    cases st <;>
      (rcases hfail with hpix | hrok
       · simp [writeEvent, hres, himg, hpix, imageFallbackStyle]
       · cases hpix : settings.terminalSize.pixels <;>
           simp [writeEvent, hres, himg, hpix, hrok, imageFallbackStyle])
  · intro settings env fs b st a d lt target title url hres himg hrok
    cases st <;> simp [writeEvent, hres, himg, hrok, imageFallbackStyle]
  · intro settings env fs b st a d lt target title url hres himg hnl hlink
    cases st with
    | inlineLink cap => exact absurd rfl (hnl cap)
    | inlineText => simp [writeEvent, hres, himg, hlink]
    | listItem kind lis => simp [writeEvent, hres, himg, hlink]
  · intro settings env fs b st a d lt target title url hres himg hlink
    cases st <;> simp [writeEvent, hres, himg, hlink, imageFallbackStyle]
  · intro settings env fs b a d lt target title
    rfl

/-- Witness for C8 at concrete inputs: the kitty-without-pixel-size failure
degrades to purple plain text; with no image capability and OSC8 available
the degradation is a native hyperlink; and a concrete `End(Image)` buffers
reference 1 and prints `[1]` in purple. -/
theorem c8_image_degradation_witness :
    (writeEvent kittyNoPixelSettings selfEnv
        (.stacked [] ⟨.noMargin⟩ (.inline .inlineText ⟨Style.new, 0⟩)) StateData.initial
        (.start (.image .inline "https://img" "")) =
      .ok (.stacked [.inline .inlineText ⟨Style.new, 0⟩] ⟨.noMargin⟩
             (.inline .inlineText
               ⟨imageFallbackStyle .inlineText Style.new, 0⟩),
           StateData.initial, [])) ∧
    (writeEvent osc8Settings selfEnv
        (.stacked [] ⟨.noMargin⟩ (.inline .inlineText ⟨Style.new, 0⟩)) StateData.initial
        (.start (.image .inline "https://img" "")) =
      .ok (.stacked [.inline .inlineText ⟨Style.new, 0⟩] ⟨.noMargin⟩
             (.inline (.inlineLink .osc8) ⟨Style.new.withFg .purple, 0⟩),
           StateData.initial, [.osc8Open "https://img" selfEnv.hostname])) ∧
    (writeEvent plainSettings plainEnv
        (.stacked [] ⟨.noMargin⟩ (.inline .inlineText ⟨Style.new, 0⟩)) StateData.initial
        (.endTag (.image .inline "https://img" "")) =
      .ok (State.pop [] ⟨.noMargin⟩,
           (StateData.initial.addLink "https://img" "" .purple).1,
           writeStyled plainSettings.terminalCapabilities (Style.new.withFg .purple)
             ("[" ++ toString StateData.initial.nextLinkIndex ++ "]"))) := by
  refine ⟨c8_image_degradation.2.2.1 kittyNoPixelSettings selfEnv []
            ⟨.noMargin⟩ .inlineText ⟨Style.new, 0⟩ StateData.initial
            .inline "https://img" "" "https://img" rfl rfl (Or.inl rfl),
          c8_image_degradation.2.2.2.2.1 osc8Settings selfEnv []
            ⟨.noMargin⟩ .inlineText ⟨Style.new, 0⟩ StateData.initial
            .inline "https://img" "" "https://img" rfl rfl ?_ rfl,
          c8_image_degradation.2.2.2.2.2.2 plainSettings plainEnv []
            ⟨.noMargin⟩ ⟨Style.new, 0⟩ StateData.initial
            .inline "https://img" ""⟩
  intro cap h
  exact InlineState.noConfusion h

end Mdcat
